import Mathlib

/-!
# Verification of the `ShorterResultsPlugin` transform

A shallow embedding of `ariadne_codegen/plugins/shorter_results.py`: the
Python `ast` fragment the plugin inspects is modelled as inductive types,
and each function of the plugin is translated into an executable Lean
definition.  Recursion through the type registry (`_get_all_fields`) is
modelled with an explicit fuel parameter; a result of `none` means the
recursion did not complete within the given recursion budget, so statements
about divergence are statements that no budget suffices.
-/

set_option autoImplicit false

namespace ShorterResults

/-- The fragment of Python `ast.expr` inspected by the plugin.  `blank`
models a bare `ast.expr()` instance (no fields), which `_update_node`
fabricates for unrecognized shapes; `attribute`, `constant` and
`awaitExpr` are carried along untouched and stand for the expression
shapes the rewriter does not recognize. -/
inductive Expr where
  | name (id : String)
  | subscript (value : Expr) (slice : Expr)
  | tuple (elts : List Expr)
  | attribute (value : Expr) (attr : String)
  | yieldExpr (value : Option Expr)
  | constant (value : String)
  | awaitExpr (value : Expr)
  | blank

/-- The fragment of Python `ast.stmt` the plugin inspects: annotated
assignments (class fields), `return`, `async for`, expression statements,
`from … import …`, and an opaque constructor for every other statement. -/
inductive Stmt where
  | annAssign (target : Expr) ( annot : Expr)
  | ret (value : Option Expr)
  | asyncFor (target : Expr) (iter : Expr) (body : List Stmt)
  | exprStmt (value : Expr)
  | importFrom (module : Option String) (names : List String)
  | other

/-- Python `ast.ClassDef` restricted to the parts read by the plugin. -/
structure ClassDef where
  name : String
  bases : List Expr
  body : List Stmt

/-- A client method (`ast.FunctionDef` / `ast.AsyncFunctionDef`): its name,
declared return annotation (`returns`, possibly absent) and body. -/
structure MethodDef where
  name : String
  returns : Option Expr
  body : List Stmt

/-- A client module (`ast.Module`): its statement list. -/
structure Module where
  body : List Stmt

/-- Model of `self.class_dict`: the registry of generated result classes,
keyed by class name.  Python dict semantics: keys are unique, insertion
ordered. -/
abbrev Registry := List (String × ClassDef)

/-- Model of `self.extended_imports : Dict[str, set]`, keyed by method
name.  The value set is modelled by its insertion-ordered list of distinct
members; iteration order over a Python `set` is modelled separately (see
`generateClientModuleOrd`). -/
abbrev ImportMap := List (String × List String)

/-- Python `dict` lookup on an association list (first matching key). -/
def dictLookup {α : Type} : List (String × α) → String → Option α
  | [], _ => none
  | (k, v) :: rest, key => if k = key then some v else dictLookup rest key

/-- Record or overwrite a class definition:
`self.class_dict[class_def.name] = class_def`. -/
def registerClass (reg : Registry) (cd : ClassDef) : Registry :=
  match dictLookup reg cd.name with
  | some _ => reg.map (fun kv => if kv.1 = cd.name then (cd.name, cd) else kv)
  | none => reg ++ [(cd.name, cd)]

/-- Whether the last character of the list is `q`. -/
def lastCharIs (q : Char) : List Char → Bool
  | [] => false
  | [c] => c == q
  | _ :: c :: rest => lastCharIs q (c :: rest)

/-- Whether the character list has length at least two and both its first
and last characters equal the quote character `q`. -/
def isQuotedBy (q : Char) : List Char → Bool
  | c :: d :: rest => c == q && lastCharIs q (d :: rest)
  | _ => false

/-- Whether a string is wrapped in matching single or double quotes. -/
def isQuoted (s : String) : Bool :=
  isQuotedBy '\x27' s.data || isQuotedBy '\x22' s.data

/-- Modelled from the spec: `ast.literal_eval` applied to a name id, which
is missing from the sources (Python stdlib).  A quoted forward-reference
literal evaluates to the unquoted identifier; any other identifier raises
`ValueError`, modelled as `none` (the caller then keeps the original
string). -/
def literalEvalStr (s : String) : Option String :=
  if isQuoted s then some (String.mk ((s.data.drop 1).dropLast)) else none

mutual

/-- Model of `_update_node`: recurse down a type annotation, unquote the
inner name(s), and collect the referenced names.  Unrecognized shapes
produce a fresh bare `ast.expr()` (`Expr.blank`) and no names. -/
def updateNode (node : Expr) : Expr × List String :=
  match node with
  | Expr.name id =>
    match literalEvalStr id with
    | some v => (Expr.name v, [v])
    | none => (Expr.name id, [id])
  | Expr.subscript value slice =>
    (Expr.subscript value (updateNode slice).1, (updateNode slice).2)
  | Expr.tuple elts =>
    (Expr.tuple (updateNodeList elts).1, (updateNodeList elts).2)
  | _ => (Expr.blank, [])
termination_by structural node

/-- The `ast.Tuple` loop of `_update_node`: rewrite every element in
place and concatenate (`list.extend`) the referenced names. -/
def updateNodeList (nodes : List Expr) : List Expr × List String :=
  match nodes with
  | [] => ([], [])
  | e :: es =>
    ((updateNode e).1 :: (updateNodeList es).1, (updateNode e).2 ++ (updateNodeList es).2)
termination_by structural nodes

end

/-- Whether an expression has one of the three shapes `_update_node`
recognizes (`ast.Name`, `ast.Subscript`, `ast.Tuple`). -/
def isRewritableShape : Expr → Bool
  | Expr.name _ => true
  | Expr.subscript _ _ => true
  | Expr.tuple _ => true
  | _ => false

/-- Whether a statement is an `ast.AnnAssign` (an annotated field). -/
def Stmt.isAnnAssign : Stmt → Bool
  | Stmt.annAssign _ _ => true
  | _ => false

/-- The base-class loop of `_get_all_fields`: iterate over
`class_def.bases`, skip non-`Name` bases and bases missing from the
registry, and concatenate the recursively resolved fields of the remaining
bases in declaration order.  The recursive resolution is passed in as
`recurse`; a `none` from it (recursion budget exhausted) propagates. -/
def collectWith (recurse : ClassDef → Option (List Stmt)) (classDict : Registry) :
    List Expr → Option (List Stmt)
  | [] => some []
  | b :: bs =>
    match b with
    | Expr.name bid =>
      match dictLookup classDict bid with
      | none => collectWith recurse classDict bs
      | some bcd =>
        match recurse bcd with
        | none => none
        | some fs =>
          match collectWith recurse classDict bs with
          | none => none
          | some rest => some (fs ++ rest)
    | _ => collectWith recurse classDict bs

/-- Model of `_get_all_fields`: recursively collect all `AnnAssign` fields
of the class and of its registered base classes, bases first.  The Python
function recurses without any cycle guard, so it is modelled with a fuel
parameter: `none` means the recursion did not complete within `fuel`
nested calls, and divergence of the Python original corresponds to `none`
for every fuel. -/
def getAllFields (fuel : Nat) (classDict : Registry) (classDef : ClassDef) :
    Option (List Stmt) :=
  match fuel with
  | 0 => none
  | Nat.succ f =>
    match collectWith (fun bcd => getAllFields f classDict bcd) classDict classDef.bases with
    | none => none
    | some baseFields => some (baseFields ++ classDef.body.filter Stmt.isAnnAssign)

/-- Model of `_return_or_yield_node_and_class`: if the named class is
registered and its fully resolved field list is a single `AnnAssign` whose
target is a plain name, return the rewritten annotation, the referenced
class names and the field name.  The outer `Option` is the fuel layer:
`none` means field resolution did not complete within `fuel`; `some none`
is the Python function returning `None` (not collapsible). -/
def returnOrYieldNodeAndClass (fuel : Nat) (currentReturnClass : String)
    (classDict : Registry) : Option (Option (Expr × List String × String)) :=
  match dictLookup classDict currentReturnClass with
  | none => some none
  | some cd =>
    match getAllFields fuel classDict cd with
    | none => none
    | some fields =>
      match fields with
      | [singleField] =>
        match singleField with
        | Stmt.annAssign (Expr.name targetId) ann =>
          some (some ((updateNode ann).1, (updateNode ann).2, targetId))
        | _ => some none
      | _ => some none

/-- Model of `_get_yield_value_from_async_for`: extract the yielded
expression from the first statement of an `async for` body, or `none` if
the statement is not of the expected shape. -/
def getYieldValueFromAsyncFor : Stmt → Option Expr
  | Stmt.asyncFor _ _ body =>
    match body with
    | Stmt.exprStmt (Expr.yieldExpr v) :: _ => v
    | _ => none
  | _ => none

/-- Python `set.add` on the insertion-ordered list model of a set. -/
def setAdd (s : List String) (x : String) : List String :=
  if x ∈ s then s else s ++ [x]

/-- One `self.extended_imports[key].add(x)` step, creating the entry with
an empty set first when the key is absent. -/
def mapAdd (ei : ImportMap) (key x : String) : ImportMap :=
  match dictLookup ei key with
  | some _ => ei.map (fun kv => if kv.1 = key then (kv.1, setAdd kv.2 x) else kv)
  | none => ei ++ [(key, [x])]

/-- Model of `_update_imports`: walk the referenced class names in order;
on the first name not present in `class_dict` the Python code executes
`return`, abandoning the remaining names; every name seen before that is
added to the import set recorded under the method's name. -/
def updateImports (classDict : Registry) (methodName : String)
    (singleFieldClasses : List String) (ei : ImportMap) : ImportMap :=
  match singleFieldClasses with
  | [] => ei
  | c :: cs =>
    match dictLookup classDict c with
    | none => ei
    | some _ => updateImports classDict methodName cs (mapAdd ei methodName c)

/-- Model of `_generate_query_and_mutation_client_method`.  The base
`Plugin` hooks are modelled from the spec as pass-throughs, so the
rewritten (or untouched) method is returned together with the updated
state of recorded extra types; the outer `Option` is the fuel layer. -/
def generateQueryAndMutationClientMethod (fuel : Nat) (classDict : Registry)
    (ei : ImportMap) (methodDef : MethodDef) (returnValue : Option Expr) :
    Option (ImportMap × MethodDef) :=
  match returnValue with
  | none => some (ei, methodDef)
  | some e =>
    match methodDef.returns with
    | some (Expr.name retId) =>
      match returnOrYieldNodeAndClass fuel retId classDict with
      | none => none
      | some none => some (ei, methodDef)
      | some (some (returnNode, singleFieldClasses, singleFieldReturnClass)) =>
        some (updateImports classDict methodDef.name singleFieldClasses ei,
          { methodDef with
            returns := some returnNode,
            body := methodDef.body.dropLast ++
              [Stmt.ret (some (Expr.attribute e singleFieldReturnClass))] })
    | _ => some (ei, methodDef)

/-- Model of `_generate_subscription_client_method`: requires a
`Subscript` return annotation whose slice is a plain name; on success the
return annotation becomes `AsyncIterator[rewritten]` and the loop body is
replaced by a single yield of the member access. -/
def generateSubscriptionClientMethod (fuel : Nat) (classDict : Registry)
    (ei : ImportMap) (methodDef : MethodDef) (target iter : Expr)
    (forBody : List Stmt) : Option (ImportMap × MethodDef) :=
  match methodDef.returns with
  | some (Expr.subscript _ (Expr.name sliceId)) =>
    match returnOrYieldNodeAndClass fuel sliceId classDict with
    | none => none
    | some none => some (ei, methodDef)
    | some (some (yieldNode, singleFieldClasses, singleFieldReturnClass)) =>
      match getYieldValueFromAsyncFor (Stmt.asyncFor target iter forBody) with
      | none => some (ei, methodDef)
      | some y =>
        some (updateImports classDict methodDef.name singleFieldClasses ei,
          { methodDef with
            returns := some (Expr.subscript (Expr.name "AsyncIterator") yieldNode),
            body := methodDef.body.dropLast ++
              [Stmt.asyncFor target iter
                [Stmt.exprStmt (Expr.yieldExpr
                  (some (Expr.attribute y singleFieldReturnClass)))]] })
  | _ => some (ei, methodDef)

/-- Model of `generate_client_method`: dispatch on the final statement of
the method body (a `Return` goes to the query/mutation rewrite, an
`AsyncFor` to the subscription rewrite, anything else — including an empty
body — is a no-op). -/
def generateClientMethod (fuel : Nat) (classDict : Registry) (ei : ImportMap)
    (methodDef : MethodDef) : Option (ImportMap × MethodDef) :=
  match methodDef.body.getLast? with
  | none => some (ei, methodDef)
  | some lastStmt =>
    match lastStmt with
    | Stmt.ret v => generateQueryAndMutationClientMethod fuel classDict ei methodDef v
    | Stmt.asyncFor t it b =>
      generateSubscriptionClientMethod fuel classDict ei methodDef t it b
    | _ => some (ei, methodDef)

/-- One statement of the reconciliation loop of `generate_client_module`:
an `ImportFrom` whose module string has recorded extended imports gets
those names appended (in the set-iteration order `order`); every other
statement is left unchanged. -/
def spliceStmtOrd (order : List String → List String) (ei : ImportMap) : Stmt → Stmt
  | Stmt.importFrom (some m) names =>
    match dictLookup ei m with
    | some adds => Stmt.importFrom (some m) (names ++ order adds)
    | none => Stmt.importFrom (some m) names
  | s => s

/-- Model of `generate_client_module`, parameterised by the iteration
order the Python interpreter happens to use over each extended-imports
`set` (Python leaves that order unspecified; an admissible `order`
produces a permutation of the recorded members). -/
def generateClientModuleOrd (order : List String → List String) (ei : ImportMap)
    (module : Module) : Module :=
  if ei.isEmpty then module
  else { body := module.body.map (spliceStmtOrd order ei) }

/-- Reconciliation statement function with the insertion iteration order. -/
def spliceStmt (ei : ImportMap) : Stmt → Stmt :=
  spliceStmtOrd (fun names => names) ei

/-- Model of `generate_client_module` with the insertion iteration order. -/
def generateClientModule (ei : ImportMap) (module : Module) : Module :=
  generateClientModuleOrd (fun names => names) ei module

/-- The host pipeline's method pass: feed every client method through
`generate_client_method`, threading `self.extended_imports`. -/
def runMethods (fuel : Nat) (classDict : Registry) :
    List MethodDef → ImportMap → Option (List MethodDef × ImportMap)
  | [], ei => some ([], ei)
  | m :: ms, ei =>
    match generateClientMethod fuel classDict ei m with
    | none => none
    | some (ei2, m2) =>
      match runMethods fuel classDict ms ei2 with
      | none => none
      | some (ms2, ei3) => some (m2 :: ms2, ei3)

/-- The whole transform on one fixed input set: register every class
definition, rewrite every client method, then reconcile the client
module's imports using set-iteration order `order`. -/
def runTransform (order : List String → List String) (fuel : Nat)
    (classDefs : List ClassDef) (methods : List MethodDef) (module : Module) :
    Option (List MethodDef × Module) :=
  match runMethods fuel (classDefs.foldl registerClass []) methods [] with
  | none => none
  | some (ms2, ei) => some (ms2, generateClientModuleOrd order ei module)

/-- Equality of statements up to the order of the names of an
`ImportFrom` statement. -/
def stmtUpToImportOrder : Stmt → Stmt → Prop
  | Stmt.importFrom m1 n1, Stmt.importFrom m2 n2 => m1 = m2 ∧ n1.Perm n2
  | s1, s2 => s1 = s2

/-! ## Concrete scenarios used by witnesses and counterexamples -/

/-- The wrapper type of the spec's Shape A example: `Wrapper { me: User }`. -/
def cdWrapper : ClassDef :=
  ⟨"Wrapper", [], [Stmt.annAssign (Expr.name "me") (Expr.name "User")]⟩

/-- The inner type `User` of the Shape A example. -/
def cdUser : ClassDef :=
  ⟨"User", [], [Stmt.annAssign (Expr.name "id") (Expr.name "str"),
                Stmt.annAssign (Expr.name "username") (Expr.name "str")]⟩

/-- Registry for the Shape A example. -/
def regA : Registry := [("Wrapper", cdWrapper), ("User", cdUser)]

/-- The Shape A example method `get_user() -> Wrapper { return callResult }`. -/
def mGetUser : MethodDef :=
  ⟨"get_user", some (Expr.name "Wrapper"), [Stmt.ret (some (Expr.name "callResult"))]⟩

/-- The rewritten Shape A example method:
`get_user() -> User { return callResult.me }`. -/
def mGetUserOut : MethodDef :=
  ⟨"get_user", some (Expr.name "User"),
    [Stmt.ret (some (Expr.attribute (Expr.name "callResult") "me"))]⟩

/-- The event type of the spec's Shape B example: `Event { payload: Payload }`. -/
def cdEvent : ClassDef :=
  ⟨"Event", [], [Stmt.annAssign (Expr.name "payload") (Expr.name "Payload")]⟩

/-- The inner type `Payload` of the Shape B example. -/
def cdPayload : ClassDef :=
  ⟨"Payload", [], [Stmt.annAssign (Expr.name "data") (Expr.name "str")]⟩

/-- Registry for the Shape B example. -/
def regB : Registry := [("Event", cdEvent), ("Payload", cdPayload)]

/-- The Shape B example method
`subscribe() -> AsyncIterator[Event] { async for msg in src: yield msg }`. -/
def mSubscribe : MethodDef :=
  ⟨"subscribe", some (Expr.subscript (Expr.name "AsyncIterator") (Expr.name "Event")),
    [Stmt.asyncFor (Expr.name "msg") (Expr.name "src")
      [Stmt.exprStmt (Expr.yieldExpr (some (Expr.name "msg")))]]⟩

/-- The rewritten Shape B example method:
`subscribe() -> AsyncIterator[Payload] { async for msg in src: yield msg.payload }`. -/
def mSubscribeOut : MethodDef :=
  ⟨"subscribe", some (Expr.subscript (Expr.name "AsyncIterator") (Expr.name "Payload")),
    [Stmt.asyncFor (Expr.name "msg") (Expr.name "src")
      [Stmt.exprStmt (Expr.yieldExpr
        (some (Expr.attribute (Expr.name "msg") "payload")))]]⟩

/-- A self-referential class: `class A(A): pass`. -/
def cdCyc : ClassDef := ⟨"A", [Expr.name "A"], []⟩

/-- A registry whose single class inherits from itself. -/
def regCyc : Registry := [("A", cdCyc)]

/-- Base class with one field, for the inheritance-order example. -/
def cdBase : ClassDef := ⟨"Base", [], [Stmt.annAssign (Expr.name "a") (Expr.name "int")]⟩

/-- Derived class adding a second field after the inherited one. -/
def cdDerived : ClassDef :=
  ⟨"Derived", [Expr.name "Base"], [Stmt.annAssign (Expr.name "b") (Expr.name "int")]⟩

/-- A registry whose single class has no bases at all. -/
def regNoBases : Registry := [("Wrapper", cdWrapper)]

/-- The constant-zero rank function, witnessing that `regNoBases` is
acyclic. -/
def rankZero : String → Nat := fun _ => 0

/-- A class whose single field's target is an attribute access
(`self.x: T`), not a plain name. -/
def cdOdd : ClassDef :=
  ⟨"Odd", [], [Stmt.annAssign (Expr.attribute (Expr.name "self") "x") (Expr.name "T")]⟩

/-- Registry for the non-name-target scenario. -/
def regOdd : Registry := [("Odd", cdOdd)]

/-- A registry containing only the class `Known`. -/
def regKnown : Registry := [("Known", ⟨"Known", [], []⟩)]

/-- Import state recording an extra import for method `get_user`. -/
def eiC9 : ImportMap := [("get_user", ["User"])]

/-- A module with no `ImportFrom` whose module string is `get_user`. -/
def modC9 : Module :=
  ⟨[Stmt.importFrom (some "other_module") ["Something"], Stmt.other]⟩

/-- A wrapper whose single field's annotation is a tuple (a union of two
generated types), used for the import-order scenario. -/
def cdWrapper2 : ClassDef :=
  ⟨"Wrapper2", [], [Stmt.annAssign (Expr.name "pair")
    (Expr.tuple [Expr.name "A", Expr.name "B"])]⟩

/-- Class definitions for the import-order scenario. -/
def cdsC8 : List ClassDef := [cdWrapper2, ⟨"A", [], []⟩, ⟨"B", [], []⟩]

/-- The single client method of the import-order scenario. -/
def msC8 : List MethodDef :=
  [⟨"get_x", some (Expr.name "Wrapper2"), [Stmt.ret (some (Expr.name "resp"))]⟩]

/-- The client module of the import-order scenario: it already imports the
wrapper from the module named after the method. -/
def modC8 : Module := ⟨[Stmt.importFrom (some "get_x") ["Wrapper2"]]⟩

/-- The rewritten method list of the import-order scenario. -/
def msOutC8 : List MethodDef :=
  [⟨"get_x", some (Expr.tuple [Expr.name "A", Expr.name "B"]),
    [Stmt.ret (some (Expr.attribute (Expr.name "resp") "pair"))]⟩]

/-! ## Sanity checks: concrete evaluations of the model -/

example : updateNode (Expr.name "User") = (Expr.name "User", ["User"]) := rfl

example :
    updateNode (Expr.subscript (Expr.name "Optional") (Expr.name "\x22User\x22")) =
      (Expr.subscript (Expr.name "Optional") (Expr.name "User"), ["User"]) := rfl

example :
    updateNode (Expr.tuple [Expr.name "X", Expr.name "X"]) =
      (Expr.tuple [Expr.name "X", Expr.name "X"], ["X", "X"]) := rfl

example : updateNode (Expr.attribute (Expr.name "a") "b") = (Expr.blank, []) := rfl

example :
    generateClientMethod 1 regA [] mGetUser =
      some ([("get_user", ["User"])], mGetUserOut) := rfl

example :
    generateClientMethod 1 regB [] mSubscribe =
      some ([("subscribe", ["Payload"])],
        ⟨"subscribe",
          some (Expr.subscript (Expr.name "AsyncIterator") (Expr.name "Payload")),
          [Stmt.asyncFor (Expr.name "msg") (Expr.name "src")
            [Stmt.exprStmt (Expr.yieldExpr
              (some (Expr.attribute (Expr.name "msg") "payload")))]]⟩) := rfl

example : getAllFields 5 regCyc cdCyc = none := rfl

example :
    getAllFields 2 [("Base", cdBase), ("Derived", cdDerived)] cdDerived =
      some [Stmt.annAssign (Expr.name "a") (Expr.name "int"),
            Stmt.annAssign (Expr.name "b") (Expr.name "int")] := rfl

example :
    runTransform (fun l => l) 2 cdsC8 msC8 modC8 =
      some (msOutC8, ⟨[Stmt.importFrom (some "get_x") ["Wrapper2", "A", "B"]]⟩) := rfl

example :
    runTransform (fun l => l.reverse) 2 cdsC8 msC8 modC8 =
      some (msOutC8, ⟨[Stmt.importFrom (some "get_x") ["Wrapper2", "B", "A"]]⟩) := rfl

/-! ## C5: the opaque / unrecognized case of the rewriter -/

/-- C5 (counterexample): the claim says the rewriter returns an
unrecognized expression unchanged; on the attribute expression `x.y` the
code instead returns a fresh bare `ast.expr()` node, which differs from
the input expression. -/
theorem updateNode_opaque_not_unchanged_cex :
    updateNode (Expr.attribute (Expr.name "x") "y") ≠
      (Expr.attribute (Expr.name "x") "y", ([] : List String)) := by
  intro h
  rw [show updateNode (Expr.attribute (Expr.name "x") "y") = (Expr.blank, []) from rfl] at h
  exact Expr.noConfusion (congrArg Prod.fst h)

/-- C5 (amended): for every type expression whose shape is not a name, a
subscript or a tuple, `_update_node` returns a fresh empty expression node
(`ast.expr()`) together with an empty referenced-name list. -/
theorem updateNode_opaque_blank (e : Expr) (h : isRewritableShape e = false) :
    updateNode e = (Expr.blank, []) := by
  cases e
  case name id => exact absurd h (by simp [isRewritableShape])
  case subscript v s => exact absurd h (by simp [isRewritableShape])
  case tuple es => exact absurd h (by simp [isRewritableShape])
  all_goals rfl

/-- C5 (witness): the amended theorem applied to the attribute
expression `x.y`. -/
theorem updateNode_opaque_blank_witness :
    updateNode (Expr.attribute (Expr.name "x") "y") = (Expr.blank, []) :=
  updateNode_opaque_blank (Expr.attribute (Expr.name "x") "y") rfl

/-! ## C6: referenced names of a tuple-shaped expression -/

/-- C6 (counterexample): the claim says the referenced-name collection of
a tuple is duplicate-free; for the tuple `(X, X)` the code returns the
name `X` twice. -/
theorem updateNode_tuple_duplicates_cex :
    (updateNode (Expr.tuple [Expr.name "X", Expr.name "X"])).2 = ["X", "X"] ∧
      ¬ (updateNode (Expr.tuple [Expr.name "X", Expr.name "X"])).2.Nodup := by
  refine ⟨rfl, ?_⟩
  rw [show (updateNode (Expr.tuple [Expr.name "X", Expr.name "X"])).2 = ["X", "X"] from rfl]
  decide

/-- Unfolded form of the tuple loop of `_update_node`: elementwise
rewrite, names concatenated across elements. -/
theorem updateNodeList_eq (nodes : List Expr) :
    updateNodeList nodes =
      (nodes.map (fun e => (updateNode e).1),
        (nodes.map (fun e => (updateNode e).2)).flatten) := by
  induction nodes with
  | nil => rfl
  | cons e es ih => simp [updateNodeList, ih]

/-- C6 (amended): for every tuple-shaped type expression, the
referenced-name collection returned by `_update_node` is the concatenation
of the elements' referenced names in element order; duplicates are kept
(`list.extend`), not removed. -/
theorem updateNode_tuple_concat (elts : List Expr) :
    updateNode (Expr.tuple elts) =
      (Expr.tuple (elts.map (fun e => (updateNode e).1)),
        (elts.map (fun e => (updateNode e).2)).flatten) := by
  simp [updateNode, updateNodeList_eq]

/-- C6 (witness): the concatenation theorem applied to the tuple
`(X, X)`. -/
theorem updateNode_tuple_concat_witness :
    updateNode (Expr.tuple [Expr.name "X", Expr.name "X"]) =
      (Expr.tuple ([Expr.name "X", Expr.name "X"].map (fun e => (updateNode e).1)),
        ([Expr.name "X", Expr.name "X"].map (fun e => (updateNode e).2)).flatten) :=
  updateNode_tuple_concat [Expr.name "X", Expr.name "X"]

/-! ## C4: recording of referenced names as required imports -/

/-- C4 (evaluation at the failing input): `Known` is present in the
registry, yet with the referenced-name list `["Unknown", "Known"]` the
early `return` in `_update_imports` records nothing at all — the claim
(and the function's own docstring) say `Known` must be recorded. -/
theorem updateImports_abort_cex :
    (dictLookup regKnown "Known").isSome = true ∧
      updateImports regKnown "get_x" ["Unknown", "Known"] [] = [] := ⟨rfl, rfl⟩

/-- Characterization of `_update_imports` as actually implemented: only
the longest prefix of registry-present names is recorded; recording stops
at the first absent name. -/
theorem updateImports_eq_takeWhile (reg : Registry) (mn : String) :
    ∀ (cs : List String) (ei : ImportMap),
      updateImports reg mn cs ei =
        (cs.takeWhile (fun c => (dictLookup reg c).isSome)).foldl
          (fun acc c => mapAdd acc mn c) ei := by
  intro cs
  induction cs with
  | nil => intro ei; rfl
  | cons c cs ih =>
    intro ei
    cases hl : dictLookup reg c with
    | none => simp [updateImports, List.takeWhile_cons, hl]
    | some _ => simp [updateImports, List.takeWhile_cons, hl, ih]

/-! ## C3: termination of `_get_all_fields` -/

/-- Monotonicity of the base loop in the recursive resolver: a successful
resolution stays successful (with the same result) under a pointwise more
successful resolver. -/
theorem collectWith_mono {f g : ClassDef → Option (List Stmt)}
    (hfg : ∀ cd fs, f cd = some fs → g cd = some fs) (c : Registry) :
    ∀ (bs : List Expr) (fs : List Stmt),
      collectWith f c bs = some fs → collectWith g c bs = some fs := by
  intro bs
  induction bs with
  | nil => exact fun fs h => h
  | cons b bs ih =>
    intro fs h
    cases b
    case name bid =>
      cases hl : dictLookup c bid with
      | none =>
        simp only [collectWith, hl] at h ⊢
        exact ih fs h
      | some bcd =>
        simp only [collectWith, hl] at h ⊢
        cases hr : f bcd with
        | none => rw [hr] at h; cases h
        | some fs1 =>
          rw [hr] at h
          rw [hfg bcd fs1 hr]
          cases hc : collectWith f c bs with
          | none => rw [hc] at h; cases h
          | some rest =>
            rw [hc] at h
            rw [ih rest hc]
            exact h
    all_goals simp only [collectWith] at h ⊢; exact ih fs h

/-- Unfolding equation of `getAllFields` at zero fuel. -/
theorem getAllFields_zero (c : Registry) (cd : ClassDef) :
    getAllFields 0 c cd = none := rfl

/-- Unfolding equation of `getAllFields` at positive fuel. -/
theorem getAllFields_succ (n : Nat) (c : Registry) (cd : ClassDef) :
    getAllFields (n + 1) c cd =
      match collectWith (fun bcd => getAllFields n c bcd) c cd.bases with
      | none => none
      | some baseFields => some (baseFields ++ cd.body.filter Stmt.isAnnAssign) := rfl

/-- More fuel never changes a successful field resolution. -/
theorem getAllFields_mono :
    ∀ (n : Nat) (c : Registry) (cd : ClassDef) (fs : List Stmt),
      getAllFields n c cd = some fs → getAllFields (n + 1) c cd = some fs := by
  intro n
  induction n with
  | zero => intro c cd fs h; rw [getAllFields_zero] at h; cases h
  | succ f ih =>
    intro c cd fs h
    rw [getAllFields_succ] at h ⊢
    cases hc : collectWith (fun bcd => getAllFields f c bcd) c cd.bases with
    | none => rw [hc] at h; simp at h
    | some baseFields =>
      rw [hc] at h
      rw [collectWith_mono (fun cd2 fs2 hh => ih c cd2 fs2 hh) c cd.bases baseFields hc]
      exact h

/-- Fuel monotonicity, `≤` version. -/
theorem getAllFields_mono_le {n m : Nat} (hnm : n ≤ m) (c : Registry)
    (cd : ClassDef) (fs : List Stmt) (h : getAllFields n c cd = some fs) :
    getAllFields m c cd = some fs := by
  induction m with
  | zero => cases Nat.le_zero.mp hnm; exact h
  | succ k ih =>
    rcases Nat.lt_or_ge n (k + 1) with hk | hk
    · exact getAllFields_mono k c cd fs (ih (Nat.lt_succ_iff.mp hk))
    · have : n = k + 1 := Nat.le_antisymm hnm hk
      subst this
      exact h

/-- C3 (counterexample): on the self-referential registry
`class A(A): pass`, `_get_all_fields` completes for no recursion budget at
all — the Python original recurses unboundedly, contradicting the claim
that resolution terminates for every registry content. -/
theorem getAllFields_cycle_diverges_cex :
    ¬ ∃ fuel, (getAllFields fuel regCyc cdCyc).isSome := by
  have hall : ∀ n, getAllFields n regCyc cdCyc = none := by
    intro n
    induction n with
    | zero => rfl
    | succ f ih =>
      have hb : cdCyc.bases = [Expr.name "A"] := rfl
      have hl : dictLookup regCyc "A" = some cdCyc := rfl
      simp [getAllFields_succ, collectWith, hb, hl, ih]
  rintro ⟨fuel, h⟩
  rw [hall fuel] at h
  cases h

/-- The base loop succeeds as soon as the resolver succeeds on every base
that is a registered plain name. -/
theorem collectWith_isSome {recurse : ClassDef → Option (List Stmt)} (c : Registry) :
    ∀ bs : List Expr,
      (∀ bid bcd, Expr.name bid ∈ bs → dictLookup c bid = some bcd →
        ∃ fs, recurse bcd = some fs) →
      ∃ fs, collectWith recurse c bs = some fs := by
  intro bs
  induction bs with
  | nil => exact fun _ => ⟨[], rfl⟩
  | cons b bs ih =>
    intro h
    cases b
    case name bid =>
      cases hl : dictLookup c bid with
      | none =>
        obtain ⟨fs, hfs⟩ :=
          ih (fun bid2 bcd2 hm hl2 => h bid2 bcd2 (List.mem_cons_of_mem _ hm) hl2)
        exact ⟨fs, by simp only [collectWith, hl]; exact hfs⟩
      | some bcd =>
        obtain ⟨fs1, hr⟩ := h bid bcd (List.mem_cons_self _ _) hl
        obtain ⟨rest, hc⟩ :=
          ih (fun bid2 bcd2 hm hl2 => h bid2 bcd2 (List.mem_cons_of_mem _ hm) hl2)
        exact ⟨fs1 ++ rest, by simp only [collectWith, hl, hr, hc]⟩
    all_goals
      obtain ⟨fs, hfs⟩ :=
        ih (fun bid2 bcd2 hm hl2 => h bid2 bcd2 (List.mem_cons_of_mem _ hm) hl2)
      exact ⟨fs, by simp only [collectWith]; exact hfs⟩

/-- C3 (amended): field resolution does terminate on every registry whose
base graph is acyclic — witnessed by any rank function that decreases from
a class to its registered bases — but not on cyclic registries (see the
counterexample).  For a registered class of rank `r`, recursion budget
`r + 1` suffices. -/
theorem getAllFields_terminates_of_rank
    (reg : Registry) (rank : String → Nat)
    (hacyc : ∀ nm cd, dictLookup reg nm = some cd →
      ∀ bid bcd, Expr.name bid ∈ cd.bases → dictLookup reg bid = some bcd →
        rank bid < rank nm) :
    ∀ nm cd, dictLookup reg nm = some cd →
      ∃ fs, getAllFields (rank nm + 1) reg cd = some fs := by
  have main : ∀ k nm cd, rank nm < k → dictLookup reg nm = some cd →
      ∃ fs, getAllFields (rank nm + 1) reg cd = some fs := by
    intro k
    induction k with
    | zero => intro nm cd h; exact absurd h (Nat.not_lt_zero _)
    | succ k ih =>
      intro nm cd hlt hlook
      have hbase : ∀ bid bcd, Expr.name bid ∈ cd.bases → dictLookup reg bid = some bcd →
          ∃ fs, getAllFields (rank nm) reg bcd = some fs := by
        intro bid bcd hm hl
        have hr : rank bid < rank nm := hacyc nm cd hlook bid bcd hm hl
        obtain ⟨fs, hfs⟩ := ih bid bcd (by omega) hl
        exact ⟨fs, getAllFields_mono_le (by omega) reg bcd fs hfs⟩
      obtain ⟨fs, hfs⟩ := collectWith_isSome reg cd.bases hbase
      exact ⟨fs ++ cd.body.filter Stmt.isAnnAssign, by simp only [getAllFields, hfs]⟩
  intro nm cd h
  exact main (rank nm + 1) nm cd (Nat.lt_succ_self _) h

/-- C3 (witness): the amended termination theorem applied to the acyclic
one-class registry `regNoBases` with the constant-zero rank. -/
theorem getAllFields_terminates_of_rank_witness :
    ∃ fs, getAllFields (rankZero "Wrapper" + 1) regNoBases cdWrapper = some fs :=
  getAllFields_terminates_of_rank regNoBases rankZero
    (by
      intro nm cd h bid bcd hm hl
      have hcd : cd = cdWrapper := by
        simp only [regNoBases, dictLookup] at h
        split at h
        · exact (Option.some.inj h).symm
        · cases h
      subst hcd
      simp [cdWrapper] at hm)
    "Wrapper" cdWrapper rfl

/-! ## C2: collapsibility analysis -/

/-- C2 (counterexample): the registry `regOdd` holds a class whose fully
resolved field list has exactly one field, yet — because that field's
target is an attribute access rather than a plain name — the analysis
returns not-collapsible, contradicting the claimed if-and-only-if. -/
theorem collapsibility_nonname_target_cex :
    getAllFields 1 regOdd cdOdd =
        some [Stmt.annAssign (Expr.attribute (Expr.name "self") "x") (Expr.name "T")] ∧
      returnOrYieldNodeAndClass 1 "Odd" regOdd = some none := ⟨rfl, rfl⟩

/-- C2 (amended): for an unregistered name the analysis returns
not-collapsible; for a registered name whose field resolution terminates,
it returns a collapsible result exactly when the resolved field list is a
single annotated field whose target is a plain name. -/
theorem collapsibility_iff_single_named_field :
    (∀ (reg : Registry) (nm : String) (fuel : Nat), dictLookup reg nm = none →
        returnOrYieldNodeAndClass fuel nm reg = some none) ∧
    (∀ (reg : Registry) (nm : String) (fuel : Nat) (cd : ClassDef) (fields : List Stmt),
        dictLookup reg nm = some cd → getAllFields fuel reg cd = some fields →
        ((∃ r, returnOrYieldNodeAndClass fuel nm reg = some (some r)) ↔
          ∃ f t, fields = [Stmt.annAssign (Expr.name f) t])) := by
  constructor
  · intro reg nm fuel h
    simp [returnOrYieldNodeAndClass, h]
  · intro reg nm fuel cd fields hl hf
    constructor
    · rintro ⟨r, hr⟩
      simp only [returnOrYieldNodeAndClass, hl, hf] at hr
      cases fields with
      | nil => simp at hr
      | cons a rest =>
        cases rest with
        | cons b rest2 => simp at hr
        | nil =>
          cases a
          case annAssign tgt ann =>
            cases tgt
            case name tid => exact ⟨tid, ann, rfl⟩
            all_goals simp at hr
          all_goals simp at hr
    · rintro ⟨f, t, rfl⟩
      refine ⟨((updateNode t).1, (updateNode t).2, f), ?_⟩
      simp [returnOrYieldNodeAndClass, hl, hf]

/-- C2 (witness): the amended characterization applied to the Shape A
registry, showing `Wrapper` collapsible. -/
theorem collapsibility_iff_single_named_field_witness :
    ∃ r, returnOrYieldNodeAndClass 1 "Wrapper" regA = some (some r) :=
  (collapsibility_iff_single_named_field.2 regA "Wrapper" 1 cdWrapper
      [Stmt.annAssign (Expr.name "me") (Expr.name "User")] rfl rfl).mpr
    ⟨"me", Expr.name "User", rfl⟩

/-! ## C1: the Shape A (query/mutation) rewrite -/

/-- C1: for a client method whose body ends in `return E` and whose
declared return type is a registered name resolving to exactly one named
field, `generate_client_method` sets the declared return type to the
rewritten field type and replaces the final statement with
`return E.fieldName`. -/
theorem shapeA_collapses_single_field_return
    (fuel : Nat) (reg : Registry) (ei : ImportMap) (m : MethodDef)
    (bodyInit : List Stmt) (e : Expr) (nm : String) (cd : ClassDef)
    (fieldName : String) (fieldType : Expr)
    (hbody : m.body = bodyInit ++ [Stmt.ret (some e)])
    (hret : m.returns = some (Expr.name nm))
    (hcd : dictLookup reg nm = some cd)
    (hfields : getAllFields fuel reg cd =
      some [Stmt.annAssign (Expr.name fieldName) fieldType]) :
    ∃ ei2, generateClientMethod fuel reg ei m =
      some (ei2, { m with
        returns := some (updateNode fieldType).1,
        body := bodyInit ++ [Stmt.ret (some (Expr.attribute e fieldName))] }) := by
  refine ⟨updateImports reg m.name (updateNode fieldType).2 ei, ?_⟩
  have hlast : m.body.getLast? = some (Stmt.ret (some e)) := by
    rw [hbody]; exact List.getLast?_concat _
  have hdrop : m.body.dropLast = bodyInit := by
    rw [hbody]; exact List.dropLast_concat
  simp only [generateClientMethod, hlast]
  simp only [generateQueryAndMutationClientMethod, hret]
  simp only [returnOrYieldNodeAndClass, hcd, hfields]
  simp [hdrop]

/-- C1 (witness): the Shape A rewrite applied to the spec's example
`Wrapper { me: User }`, `get_user() -> Wrapper { return callResult }`. -/
theorem shapeA_collapses_single_field_return_witness :
    ∃ ei2, generateClientMethod 1 regA [] mGetUser = some (ei2, mGetUserOut) :=
  shapeA_collapses_single_field_return 1 regA [] mGetUser [] (Expr.name "callResult")
    "Wrapper" cdWrapper "me" (Expr.name "User") rfl rfl rfl rfl

/-! ## C7: the Shape B (subscription) rewrite -/

/-- C7: for a client method whose body ends in an `async for` whose body
is exactly one `yield Y`, and whose declared return type is a subscript
with a registered, collapsible name as slice, `generate_client_method`
sets the declared return type to `AsyncIterator[rewritten]` and replaces
the loop body's yield with `yield Y.fieldName`. -/
theorem shapeB_collapses_single_field_yield
    (fuel : Nat) (reg : Registry) (ei : ImportMap) (m : MethodDef)
    (bodyInit : List Stmt) (target iter y w : Expr) (nm : String) (cd : ClassDef)
    (fieldName : String) (fieldType : Expr)
    (hbody : m.body = bodyInit ++
      [Stmt.asyncFor target iter [Stmt.exprStmt (Expr.yieldExpr (some y))]])
    (hret : m.returns = some (Expr.subscript w (Expr.name nm)))
    (hcd : dictLookup reg nm = some cd)
    (hfields : getAllFields fuel reg cd =
      some [Stmt.annAssign (Expr.name fieldName) fieldType]) :
    ∃ ei2, generateClientMethod fuel reg ei m =
      some (ei2, { m with
        returns := some (Expr.subscript (Expr.name "AsyncIterator") (updateNode fieldType).1),
        body := bodyInit ++ [Stmt.asyncFor target iter
          [Stmt.exprStmt (Expr.yieldExpr (some (Expr.attribute y fieldName)))]] }) := by
  refine ⟨updateImports reg m.name (updateNode fieldType).2 ei, ?_⟩
  have hlast : m.body.getLast? =
      some (Stmt.asyncFor target iter [Stmt.exprStmt (Expr.yieldExpr (some y))]) := by
    rw [hbody]; exact List.getLast?_concat _
  have hdrop : m.body.dropLast = bodyInit := by
    rw [hbody]; exact List.dropLast_concat
  simp only [generateClientMethod, hlast]
  simp only [generateSubscriptionClientMethod, hret]
  simp only [returnOrYieldNodeAndClass, hcd, hfields]
  simp [getYieldValueFromAsyncFor, hdrop]

/-- C7 (witness): the Shape B rewrite applied to the spec's example
`Event { payload: Payload }` and
`subscribe() -> AsyncIterator[Event] { async for msg in src: yield msg }`. -/
theorem shapeB_collapses_single_field_yield_witness :
    ∃ ei2, generateClientMethod 1 regB [] mSubscribe = some (ei2, mSubscribeOut) :=
  shapeB_collapses_single_field_yield 1 regB [] mSubscribe []
    (Expr.name "msg") (Expr.name "src") (Expr.name "msg")
    (Expr.name "AsyncIterator") "Event" cdEvent "payload" (Expr.name "Payload")
    rfl rfl rfl rfl

/-! ## C9 and C10: import reconciliation -/

/-- Lookup across an appended association list. -/
theorem dictLookup_append {α : Type} (l1 l2 : List (String × α)) (k : String) :
    dictLookup (l1 ++ l2) k =
      match dictLookup l1 k with
      | some v => some v
      | none => dictLookup l2 k := by
  induction l1 with
  | nil => rfl
  | cons kv rest ih =>
    obtain ⟨k1, v1⟩ := kv
    by_cases h1 : k1 = k
    · simp [dictLookup, h1]
    · simp [dictLookup, h1, ih]

/-- Replacing the value at one key by `setAdd` leaves the key set of the
association list unchanged. -/
theorem dictLookup_mapSetAdd (l : ImportMap) (key x k : String) :
    (dictLookup (l.map (fun kv => if kv.1 = key then (kv.1, setAdd kv.2 x) else kv)) k).isSome =
      (dictLookup l k).isSome := by
  induction l with
  | nil => rfl
  | cons kv rest ih =>
    obtain ⟨k1, v1⟩ := kv
    have hhead : (if (k1, v1).1 = key then ((k1, v1).1, setAdd (k1, v1).2 x) else (k1, v1)) =
        (k1, if k1 = key then setAdd v1 x else v1) := by
      by_cases h1 : k1 = key <;> simp [h1]
    rw [List.map_cons, hhead]
    by_cases h2 : k1 = k
    · subst h2
      simp [dictLookup]
    · simp [dictLookup, h2, ih]

/-- A key present after a `mapAdd` step was present before, or is the
added key. -/
theorem mapAdd_keys (ei : ImportMap) (key x k : String)
    (h : (dictLookup (mapAdd ei key x) k).isSome = true) :
    (dictLookup ei k).isSome = true ∨ k = key := by
  cases hl : dictLookup ei key with
  | some v =>
    simp only [mapAdd, hl] at h
    rw [dictLookup_mapSetAdd] at h
    exact Or.inl h
  | none =>
    simp only [mapAdd, hl] at h
    rw [dictLookup_append] at h
    cases hk : dictLookup ei k with
    | some v => exact Or.inl rfl
    | none =>
      rw [hk] at h
      simp only [dictLookup] at h
      by_cases h2 : key = k
      · exact Or.inr h2.symm
      · rw [if_neg h2] at h
        simp [dictLookup] at h

/-- A key present after `_update_imports` was present before, or is the
method's name. -/
theorem updateImports_keys (reg : Registry) (mn : String) :
    ∀ (cs : List String) (ei : ImportMap) (k : String),
      (dictLookup (updateImports reg mn cs ei) k).isSome = true →
      (dictLookup ei k).isSome = true ∨ k = mn := by
  intro cs
  induction cs with
  | nil => intro ei k h; exact Or.inl h
  | cons c cs ih =>
    intro ei k h
    cases hl : dictLookup reg c with
    | none => simp only [updateImports, hl] at h; exact Or.inl h
    | some v =>
      simp only [updateImports, hl] at h
      rcases ih (mapAdd ei mn c) k h with h2 | h2
      · exact mapAdd_keys ei mn c k h2
      · exact Or.inr h2

/-- Keys added by the query/mutation rewrite are the method's own name. -/
theorem generateQueryAndMutationClientMethod_keys
    (fuel : Nat) (reg : Registry) (ei : ImportMap) (m : MethodDef) (v : Option Expr)
    (ei2 : ImportMap) (m2 : MethodDef)
    (h : generateQueryAndMutationClientMethod fuel reg ei m v = some (ei2, m2)) :
    ∀ k, (dictLookup ei2 k).isSome = true →
      (dictLookup ei k).isSome = true ∨ k = m.name := by
  intro k hk
  unfold generateQueryAndMutationClientMethod at h
  split at h
  · simp only [Option.some.injEq, Prod.mk.injEq] at h
    obtain ⟨h1, h2⟩ := h; subst h1; exact Or.inl hk
  · split at h
    · split at h
      · simp at h
      · simp only [Option.some.injEq, Prod.mk.injEq] at h
        obtain ⟨h1, h2⟩ := h; subst h1; exact Or.inl hk
      · simp only [Option.some.injEq, Prod.mk.injEq] at h
        obtain ⟨h1, h2⟩ := h
        subst h1
        exact updateImports_keys reg m.name _ ei k hk
    · simp only [Option.some.injEq, Prod.mk.injEq] at h
      obtain ⟨h1, h2⟩ := h; subst h1; exact Or.inl hk

/-- Keys added by the subscription rewrite are the method's own name. -/
theorem generateSubscriptionClientMethod_keys
    (fuel : Nat) (reg : Registry) (ei : ImportMap) (m : MethodDef)
    (t it : Expr) (b : List Stmt) (ei2 : ImportMap) (m2 : MethodDef)
    (h : generateSubscriptionClientMethod fuel reg ei m t it b = some (ei2, m2)) :
    ∀ k, (dictLookup ei2 k).isSome = true →
      (dictLookup ei k).isSome = true ∨ k = m.name := by
  intro k hk
  unfold generateSubscriptionClientMethod at h
  split at h
  · split at h
    · simp at h
    · simp only [Option.some.injEq, Prod.mk.injEq] at h
      obtain ⟨h1, h2⟩ := h; subst h1; exact Or.inl hk
    · split at h
      · simp only [Option.some.injEq, Prod.mk.injEq] at h
        obtain ⟨h1, h2⟩ := h; subst h1; exact Or.inl hk
      · simp only [Option.some.injEq, Prod.mk.injEq] at h
        obtain ⟨h1, h2⟩ := h
        subst h1
        exact updateImports_keys reg m.name _ ei k hk
  · simp only [Option.some.injEq, Prod.mk.injEq] at h
    obtain ⟨h1, h2⟩ := h; subst h1; exact Or.inl hk

/-- Keys added by one `generate_client_method` call are the method's own
name. -/
theorem generateClientMethod_keys (fuel : Nat) (reg : Registry) (ei : ImportMap)
    (m : MethodDef) (ei2 : ImportMap) (m2 : MethodDef)
    (h : generateClientMethod fuel reg ei m = some (ei2, m2)) :
    ∀ k, (dictLookup ei2 k).isSome = true →
      (dictLookup ei k).isSome = true ∨ k = m.name := by
  intro k hk
  unfold generateClientMethod at h
  split at h
  · simp only [Option.some.injEq, Prod.mk.injEq] at h
    obtain ⟨h1, h2⟩ := h; subst h1; exact Or.inl hk
  · split at h
    · exact generateQueryAndMutationClientMethod_keys fuel reg ei m _ ei2 m2 h k hk
    · exact generateSubscriptionClientMethod_keys fuel reg ei m _ _ _ ei2 m2 h k hk
    · simp only [Option.some.injEq, Prod.mk.injEq] at h
      obtain ⟨h1, h2⟩ := h; subst h1; exact Or.inl hk

/-- Keys present after the method pass come from the initial state or are
names of processed methods. -/
theorem runMethods_keys (fuel : Nat) (reg : Registry) :
    ∀ (ms : List MethodDef) (ei : ImportMap) (ms2 : List MethodDef) (ei2 : ImportMap),
      runMethods fuel reg ms ei = some (ms2, ei2) →
      ∀ k, (dictLookup ei2 k).isSome = true →
        (dictLookup ei k).isSome = true ∨ k ∈ ms.map MethodDef.name := by
  intro ms
  induction ms with
  | nil =>
    intro ei ms2 ei2 h k hk
    simp only [runMethods, Option.some.injEq, Prod.mk.injEq] at h
    obtain ⟨h1, h2⟩ := h
    subst h2
    exact Or.inl hk
  | cons m ms ih =>
    intro ei ms2 ei2 h k hk
    simp only [runMethods] at h
    cases hg : generateClientMethod fuel reg ei m with
    | none => simp only [hg] at h; exact Option.noConfusion h
    | some p =>
      obtain ⟨eiM, mM⟩ := p
      simp only [hg] at h
      cases hr : runMethods fuel reg ms eiM with
      | none => simp only [hr] at h; exact Option.noConfusion h
      | some q =>
        obtain ⟨msR, eiR⟩ := q
        simp only [hr, Option.some.injEq, Prod.mk.injEq] at h
        obtain ⟨h1, h2⟩ := h
        subst h2
        rcases ih eiM msR eiR hr k hk with h3 | h3
        · rcases generateClientMethod_keys fuel reg ei m eiM mM hg k h3 with h4 | h4
          · exact Or.inl h4
          · exact Or.inr (by simp [h4])
        · exact Or.inr (by simp [h3])

/-- Splicing leaves a statement unchanged when it is not an import-from
whose module has a recorded entry. -/
theorem spliceStmtOrd_id (order : List String → List String) (ei : ImportMap)
    (s : Stmt)
    (h : ∀ m names, s = Stmt.importFrom (some m) names → dictLookup ei m = none) :
    spliceStmtOrd order ei s = s := by
  cases s
  case importFrom om names =>
    cases om with
    | none => rfl
    | some m =>
      have hm := h m names rfl
      simp [spliceStmtOrd, hm]
  all_goals rfl

/-- Mapping the splicing function over statements none of which match the
recorded imports is the identity. -/
theorem map_spliceStmt_eq_self (order : List String → List String) (ei : ImportMap) :
    ∀ l : List Stmt,
      (∀ s, s ∈ l → ∀ m names, s = Stmt.importFrom (some m) names →
        dictLookup ei m = none) →
      l.map (spliceStmtOrd order ei) = l := by
  intro l
  induction l with
  | nil => intro _; rfl
  | cons s rest ih =>
    intro h
    simp only [List.map_cons]
    rw [spliceStmtOrd_id order ei s (fun m names hse => h s (List.mem_cons_self _ _) m names hse)]
    rw [ih (fun s2 hs2 m names hse => h s2 (List.mem_cons_of_mem _ hs2) m names hse)]

/-- C9 (counterexample): with a recorded import for method `get_user` but
a client module that contains no import-from statement for module
`get_user`, reconciliation silently returns the module unchanged — no
internal-invariant failure is surfaced (the code has no failure path), and
no import statement is fabricated. -/
theorem reconcile_missing_import_silent_cex :
    generateClientModule eiC9 modC9 = modC9 := rfl

/-- C9 (amended): when no statement of the client module is an
ImportFrom whose module string has a recorded entry, reconciliation is a
silent no-op returning the module unchanged, and in all cases the number
of statements is preserved, so no import statement is ever fabricated. -/
theorem reconcile_missing_module_silent :
    (∀ (ei : ImportMap) (module : Module),
        (∀ s, s ∈ module.body → ∀ m names, s = Stmt.importFrom (some m) names →
          dictLookup ei m = none) →
        generateClientModule ei module = module) ∧
    (∀ (ei : ImportMap) (module : Module),
        (generateClientModule ei module).body.length = module.body.length) := by
  constructor
  · intro ei module h
    unfold generateClientModule generateClientModuleOrd
    split
    · rfl
    · obtain ⟨body⟩ := module
      exact congrArg Module.mk (map_spliceStmt_eq_self _ ei body h)
  · intro ei module
    unfold generateClientModule generateClientModuleOrd
    split
    · rfl
    · simp

/-- C9 (witness): the amended no-op theorem applied to a module with a
single non-import statement and a nonempty recorded import map. -/
theorem reconcile_missing_module_silent_witness :
    generateClientModule [("m", ["A"])] ⟨[Stmt.exprStmt (Expr.name "x")]⟩ =
      ⟨[Stmt.exprStmt (Expr.name "x")]⟩ :=
  reconcile_missing_module_silent.1 [("m", ["A"])] ⟨[Stmt.exprStmt (Expr.name "x")]⟩
    (by
      intro s hs m names hse
      simp at hs
      subst hs
      exact Stmt.noConfusion hse)

/-- C10: the required-import structure is keyed by the rewritten methods'
own names (starting from an empty structure, every recorded key is the
name of one of the processed methods), and reconciliation appends each
method's recorded imports exactly to the import-from statements whose
module string equals that key, leaving all other statements unchanged
(the per-statement function `spliceStmt` appends to matching import-from
statements and is the identity elsewhere). -/
theorem imports_keyed_by_method_name
    (fuel : Nat) (reg : Registry) (ms : List MethodDef) (ms2 : List MethodDef)
    (ei : ImportMap)
    (h : runMethods fuel reg ms [] = some (ms2, ei)) :
    (∀ k, (dictLookup ei k).isSome = true → k ∈ ms.map MethodDef.name) ∧
    (∀ module : Module,
        (generateClientModule ei module).body = module.body.map (spliceStmt ei)) := by
  constructor
  · intro k hk
    rcases runMethods_keys fuel reg ms [] ms2 ei h k hk with h2 | h2
    · simp [dictLookup] at h2
    · exact h2
  · intro module
    unfold generateClientModule generateClientModuleOrd spliceStmt
    split
    · next hemp =>
        have he : ei = [] := List.isEmpty_iff.mp hemp
        subst he
        exact (map_spliceStmt_eq_self _ [] module.body (fun _ _ _ _ _ => rfl)).symm
    · rfl

/-- C10 (witness): the keying-and-splicing theorem applied to the Shape A
scenario run. -/
theorem imports_keyed_by_method_name_witness :
    (∀ k, (dictLookup [("get_user", ["User"])] k).isSome = true →
        k ∈ [mGetUser].map MethodDef.name) ∧
    (∀ module : Module,
        (generateClientModule [("get_user", ["User"])] module).body =
          module.body.map (spliceStmt [("get_user", ["User"])])) :=
  imports_keyed_by_method_name 1 regA [mGetUser] [mGetUserOut]
    [("get_user", ["User"])] rfl

/-! ## C8: determinism of the whole transform -/

/-- Reflexivity of statement equality up to import order. -/
theorem stmtUpToImportOrder_refl (s : Stmt) : stmtUpToImportOrder s s := by
  cases s
  case importFrom om names => exact ⟨rfl, List.Perm.refl names⟩
  all_goals rfl

/-- Splicing under two admissible set-iteration orders yields statements
equal up to the order of imported names. -/
theorem spliceStmtOrd_upTo (o1 o2 : List String → List String)
    (h1 : ∀ l, (o1 l).Perm l) (h2 : ∀ l, (o2 l).Perm l) (ei : ImportMap) (s : Stmt) :
    stmtUpToImportOrder (spliceStmtOrd o1 ei s) (spliceStmtOrd o2 ei s) := by
  cases s
  case importFrom om names =>
    cases om with
    | none => exact stmtUpToImportOrder_refl _
    | some m =>
      cases hl : dictLookup ei m with
      | none =>
        simp only [spliceStmtOrd, hl]
        exact ⟨rfl, List.Perm.refl names⟩
      | some adds =>
        simp only [spliceStmtOrd, hl]
        exact ⟨rfl, List.Perm.append_left names ((h1 adds).trans (h2 adds).symm)⟩
  all_goals exact stmtUpToImportOrder_refl _

/-- Reconciliation under two admissible set-iteration orders yields
modules equal statement-by-statement up to import order. -/
theorem generateClientModuleOrd_upTo (o1 o2 : List String → List String)
    (h1 : ∀ l, (o1 l).Perm l) (h2 : ∀ l, (o2 l).Perm l) (ei : ImportMap)
    (module : Module) :
    List.Forall₂ stmtUpToImportOrder (generateClientModuleOrd o1 ei module).body
      (generateClientModuleOrd o2 ei module).body := by
  unfold generateClientModuleOrd
  split
  · exact List.forall₂_same.mpr (fun s _ => stmtUpToImportOrder_refl s)
  · simp only
    induction module.body with
    | nil => exact List.Forall₂.nil
    | cons s rest ih => exact List.Forall₂.cons (spliceStmtOrd_upTo o1 o2 h1 h2 ei s) ih

/-- C8 (counterexample): the iteration order of a Python `set` is
unspecified; with two admissible orders (insertion order and its reverse)
the transform on one and the same input set produces two different client
modules — the names spliced into the import statement appear in different
orders.  Re-running the generator in a fresh interpreter (fresh hash
seed) can therefore change the output, contradicting the claim. -/
theorem transform_order_dependent_cex :
    (∀ l : List String, (l.reverse).Perm l) ∧
      runTransform (fun l => l) 2 cdsC8 msC8 modC8 ≠
        runTransform (fun l => l.reverse) 2 cdsC8 msC8 modC8 := by
  refine ⟨fun l => List.reverse_perm l, ?_⟩
  intro h
  rw [show runTransform (fun l => l) 2 cdsC8 msC8 modC8 =
        some (msOutC8, ⟨[Stmt.importFrom (some "get_x") ["Wrapper2", "A", "B"]]⟩) from rfl,
      show runTransform (fun l => l.reverse) 2 cdsC8 msC8 modC8 =
        some (msOutC8, ⟨[Stmt.importFrom (some "get_x") ["Wrapper2", "B", "A"]]⟩) from rfl] at h
  simp at h

/-- C8 (amended): the transform is deterministic up to the iteration
order of each recorded import set: the rewritten methods are identical,
and the reconciled modules agree statement-by-statement with the same
spliced import-name sets, in possibly different orders.  With a fixed
iteration order the transform is a pure function of its input. -/
theorem transform_deterministic_up_to_import_order
    (o1 o2 : List String → List String)
    (h1 : ∀ l, (o1 l).Perm l) (h2 : ∀ l, (o2 l).Perm l)
    (fuel : Nat) (cds : List ClassDef) (ms : List MethodDef) (module : Module)
    (ms1 : List MethodDef) (mod1 : Module) (ms2 : List MethodDef) (mod2 : Module)
    (r1 : runTransform o1 fuel cds ms module = some (ms1, mod1))
    (r2 : runTransform o2 fuel cds ms module = some (ms2, mod2)) :
    ms1 = ms2 ∧ List.Forall₂ stmtUpToImportOrder mod1.body mod2.body := by
  unfold runTransform at r1 r2
  cases hrm : runMethods fuel (cds.foldl registerClass []) ms [] with
  | none =>
    rw [hrm] at r1
    exact Option.noConfusion r1
  | some p =>
    obtain ⟨msR, eiR⟩ := p
    rw [hrm] at r1 r2
    simp only [Option.some.injEq, Prod.mk.injEq] at r1 r2
    obtain ⟨ha1, hb1⟩ := r1
    obtain ⟨ha2, hb2⟩ := r2
    subst ha1; subst ha2; subst hb1; subst hb2
    exact ⟨rfl, generateClientModuleOrd_upTo o1 o2 h1 h2 eiR module⟩

/-- C8 (witness): the up-to-order determinism theorem applied to the
order-sensitivity scenario with the insertion order and its reverse. -/
theorem transform_deterministic_up_to_import_order_witness :
    msOutC8 = msOutC8 ∧
      List.Forall₂ stmtUpToImportOrder
        [Stmt.importFrom (some "get_x") ["Wrapper2", "A", "B"]]
        [Stmt.importFrom (some "get_x") ["Wrapper2", "B", "A"]] :=
  transform_deterministic_up_to_import_order (fun l => l) (fun l => l.reverse)
    (fun l => List.Perm.refl l) (fun l => List.reverse_perm l) 2 cdsC8 msC8 modC8
    msOutC8 ⟨[Stmt.importFrom (some "get_x") ["Wrapper2", "A", "B"]]⟩
    msOutC8 ⟨[Stmt.importFrom (some "get_x") ["Wrapper2", "B", "A"]]⟩ rfl rfl

end ShorterResults
